import Mathlib

/-
Verification of the shard-partitioning and global-index-resolution layer of
ocpmodels/datasets/trajectory_lmdb.py (TrajectoryLmdbDataset and
data_list_collater), as a shallow embedding in Lean 4.

Modelling conventions:
- LMDB environments are modelled as finite key-value maps `String → Option Bytes`
  (an opened store handle); `connect_db` becomes a pure lookup `fs : String → Env`
  from the path to the store it opens.
- `pickle.loads` is modelled as a parameter `loads : Bytes → Option Value` where a
  `Value` is either an unsigned integer (the "length" metadata entry) or a data
  record; a `none`/wrong-shape result models an undeserializable byte string.
- Fallible Python code (uncaught exceptions) is modelled with `Except`:
  construction-time failures (`assert`, bad length metadata) return `InitError`,
  access-time failures (failed `assert`, list IndexError, pickle TypeError)
  return `Err`.
- Machine integers are modelled as `Nat`/`Int`; Python's `idx` argument of
  `__getitem__` may be negative, so it is an `Int`.
-/

namespace OCP

abbrev Bytes := List Nat

/-- A record (torch_geometric `Data` object): an optional edge-connectivity
field `edge_index` (a 2-row matrix, modelled as the two rows; `none` models the
attribute being absent, which raises `NotImplementedError` on access), the `id`
attribute, and an opaque payload standing for all other fields. -/
structure DataObject where
  edge_index : Option (List Int × List Int)
  id : String
  payload : Nat
deriving DecidableEq, Repr

/-- A deserialized pickle value: the integer stored under the "length" metadata
key, or a data record. -/
inductive Value where
  | nat (n : Nat)
  | data (d : DataObject)
deriving DecidableEq

/-- An opened LMDB environment, reduced to its read contract
(`begin().get(key)`): a map from (ascii-encoded) keys to raw bytes. -/
abbrev Env := String → Option Bytes

/-- Access-time errors of `__getitem__` / `close_db`:
`indexOutOfRange` models the failed `assert el_idx >= 0` and the list
IndexError on `self.envs[db_idx]` / `self._keys[db_idx][el_idx]`;
`corruptRecord` models `pickle.loads` failing (including `loads(None)` when the
key is absent); `attributeError` models Python's AttributeError. -/
inductive Err where
  | indexOutOfRange
  | corruptRecord
  | attributeError
deriving DecidableEq, Repr

/-- Construction-time errors: `noShardsFound` models the failed
`assert len(db_paths) > 0`; `malformedShard` models the uncaught exception from
`pickle.loads(env.begin().get(b"length"))` when the metadata key is absent or
its bytes do not deserialize to an integer. -/
inductive InitError where
  | noShardsFound
  | malformedShard
deriving DecidableEq, Repr

instance {ε α : Type} [DecidableEq ε] [DecidableEq α] :
    DecidableEq (Except ε α) := fun a b =>
  match a, b with
  | .ok x, .ok y =>
    if h : x = y then isTrue (by rw [h])
    else isFalse (by intro hh; cases hh; exact h rfl)
  | .error e, .error f =>
    if h : e = f then isTrue (by rw [h])
    else isFalse (by intro hh; cases hh; exact h rfl)
  | .ok _, .error _ => isFalse (by intro hh; cases hh)
  | .error _, .ok _ => isFalse (by intro hh; cases hh)

/-- Python's `list(range(start, stop, step))` for a non-negative `start` and a
positive `step`: the increasing list `start, start + step, ...` below `stop`. -/
def pyRange3 (start stop step : Nat) : List Nat :=
  (List.range stop).filter (fun i => start ≤ i && (i - start) % step == 0)

/-- Python's extended list slice `l[start:stop:step]` for non-negative bounds
and a positive step (the `stop` bound is clamped to the list length). -/
def sliceStep (l : List α) (start stop step : Nat) : List α :=
  (pyRange3 start (min stop l.length) step).filterMap (fun i => l[i]?)

/-- `np.cumsum(l).tolist()`: the list of partial sums
`l[0], l[0]+l[1], ...` (one entry per element of `l`). -/
def cumsum (l : List Nat) : List Nat :=
  (List.range l.length).map (fun i => (l.take (i + 1)).sum)

/-- The loop of CPython's `bisect.bisect_right(a, x)` with explicit fuel
(each iteration strictly shrinks `hi - lo`, so `a.length` fuel suffices):
while lo < hi: mid = (lo+hi)//2; if x < a[mid]: hi = mid else: lo = mid+1. -/
def bisectLoop (a : List Nat) (x : Int) : Nat → Nat → Nat → Nat
  | 0, lo, _ => lo
  | fuel + 1, lo, hi =>
    if lo < hi then
      let mid := (lo + hi) / 2
      if x < ((a[mid]?.getD 0 : Nat) : Int) then bisectLoop a x fuel lo mid
      else bisectLoop a x fuel (mid + 1) hi
    else lo

/-- `bisect.bisect(a, x)` (= `bisect_right`): insertion point to the right of
any entries equal to `x`. -/
def bisect (a : List Nat) (x : Int) : Nat :=
  bisectLoop a x a.length 0 a.length

/-- `num_full_dbs = len(db_paths) - (len(db_paths) % world_size)`. -/
def numFull (n world_size : Nat) : Nat := n - n % world_size

/-- The state built by `TrajectoryLmdbDataset.__init__`.  The field `env`
models the instance attribute `self.env`: `__init__` never assigns it (it only
assigns `self.envs`), so it is `none` on every constructed dataset; `close_db`
reads it. -/
structure Dataset where
  db_paths : List String
  envs : List Env
  keys : List (List Nat)
  keylen_cumulative : List Nat
  num_samples : Nat
  env : Option Env

/-- Reading a shard's declared length in `__init__`:
`pickle.loads(self.envs[-1].begin().get("length".encode("ascii")))`.
A missing key (loads of `None`) or bytes that do not deserialize to an integer
abort construction with `malformedShard`. -/
def readLength (fs : String → Env) (loads : Bytes → Option Value)
    (p : String) : Except InitError Nat :=
  match fs p "length" with
  | none => .error .malformedShard
  | some b =>
    match loads b with
    | some (.nat n) => .ok n
    | _ => .error .malformedShard

/-- The owned-key lists `__init__` builds: `list(range(length))` for each fully
owned shard, and the rank-strided `list(range(rank, length - length % world_size,
world_size))` for each shared shard. -/
def builtKeys (rank world_size : Nat) (fullLens sharedLens : List Nat) :
    List (List Nat) :=
  fullLens.map List.range ++
    sharedLens.map (fun L => pyRange3 rank (L - L % world_size) world_size)

/-- `TrajectoryLmdbDataset.__init__`: partition the sorted shard paths into the
fully owned slice `db_paths[rank:num_full_dbs:world_size]` and the shared tail
`db_paths[num_full_dbs:]`, open each owned shard, read its declared length,
build its owned-key list, and build the cumulative-length array. -/
def init (fs : String → Env) (loads : Bytes → Option Value)
    (db_paths : List String) (world_size rank : Nat) :
    Except InitError Dataset :=
  if db_paths.length = 0 then .error .noShardsFound
  else
    match (sliceStep db_paths rank (numFull db_paths.length world_size)
          world_size).mapM (readLength fs loads),
        (db_paths.drop (numFull db_paths.length world_size)).mapM
          (readLength fs loads) with
    | .ok fullLens, .ok sharedLens =>
      .ok { db_paths := sliceStep db_paths rank (numFull db_paths.length world_size)
              world_size ++ db_paths.drop (numFull db_paths.length world_size)
            envs := (sliceStep db_paths rank (numFull db_paths.length world_size)
              world_size ++ db_paths.drop (numFull db_paths.length world_size)).map fs
            keys := builtKeys rank world_size fullLens sharedLens
            keylen_cumulative := cumsum ((builtKeys rank world_size fullLens
              sharedLens).map List.length)
            num_samples := ((builtKeys rank world_size fullLens
              sharedLens).map List.length).sum
            env := none }
    | .error e, _ => .error e
    | _, .error e => .error e

/-- Lines 76-81 of `__getitem__`: `db_idx = bisect.bisect(self._keylen_cumulative,
idx)`; `el_idx = idx` then `el_idx = idx - self._keylen_cumulative[db_idx - 1]`
when `db_idx != 0`. -/
def resolve (ds : Dataset) (idx : Int) : Nat × Int :=
  let db_idx := bisect ds.keylen_cumulative idx
  let el_idx : Int :=
    if db_idx ≠ 0 then idx - ((ds.keylen_cumulative[db_idx - 1]?.getD 0 : Nat) : Int)
    else idx
  (db_idx, el_idx)

/-- The tail of `__getitem__` after the raw bytes are fetched: deserialize
(`pickle.loads`), apply the optional transform, then overwrite the record's
`id` attribute with `f"{db_idx}_{el_idx}"`. -/
def deserializeStep (loads : Bytes → Option Value)
    (transform : Option (DataObject → DataObject)) (db_idx el_idx : Nat)
    (raw : Option Bytes) : Except Err DataObject :=
  match raw with
  | none => .error .corruptRecord
  | some b =>
    match loads b with
    | some (.data d0) =>
      let d1 := match transform with
        | some t => t d0
        | none => d0
      .ok { d1 with id := toString db_idx ++ "_" ++ toString el_idx }
    | _ => .error .corruptRecord

/-- `TrajectoryLmdbDataset.__getitem__`: resolve the global index, check
`assert el_idx >= 0`, fetch `self.envs[db_idx].begin().get(str(self._keys[db_idx]
[el_idx]))` (a list IndexError on either subscript is an access failure), then
deserialize, transform and stamp the record. -/
def getitem (loads : Bytes → Option Value) (ds : Dataset)
    (transform : Option (DataObject → DataObject)) (idx : Int) :
    Except Err DataObject :=
  if (resolve ds idx).2 < 0 then .error .indexOutOfRange
  else
    match ds.envs[(resolve ds idx).1]?,
        (ds.keys[(resolve ds idx).1]?.bind (fun ks => ks[(resolve ds idx).2.toNat]?)) with
    | some env, some key =>
      deserializeStep loads transform (resolve ds idx).1 (resolve ds idx).2.toNat
        (env (toString key))
    | _, _ => .error .indexOutOfRange

/-- `TrajectoryLmdbDataset.close_db`: `self.env.close()`.  The attribute
`self.env` is never assigned anywhere in the class, so on every dataset the
call raises AttributeError and closes nothing; when it were assigned, the one
environment it names would be closed (returned here as the list of handles the
call released). -/
def close_db (ds : Dataset) : Except Err (List Env) :=
  match ds.env with
  | some e => .ok [e]
  | none => .error .attributeError

/-- `data.edge_index[1, :].shape[0]`: the number of entries in the second row
of the record's edge-connectivity matrix. -/
def secondRowLen (d : DataObject) : Nat :=
  ((d.edge_index.getD ([], [])).2).length

/-- The collated batch: the merged records (`Batch.from_data_list`), the
optional derived `neighbors` attribute, and whether the diagnostic
("LMDB does not contain edge index information ...") was printed. -/
structure Batch where
  data_list : List DataObject
  neighbors : Option (List Nat)
  diagnostic : Bool
deriving DecidableEq

/-- `data_list_collater(data_list, otf_graph)`: when `otf_graph` is false, try
to build `n_neighbors` from every record's `edge_index`; the loop aborts on the
first record whose `edge_index` is absent (`NotImplementedError`), in which
case `batch.neighbors` is never assigned and the diagnostic is printed; the
batch is returned in every case. -/
def data_list_collater (data_list : List DataObject) (otf_graph : Bool) :
    Batch :=
  if !otf_graph then
    if data_list.all (fun d => d.edge_index.isSome) then
      { data_list := data_list, neighbors := some (data_list.map secondRowLen)
        diagnostic := false }
    else
      { data_list := data_list, neighbors := none, diagnostic := true }
  else
    { data_list := data_list, neighbors := none, diagnostic := false }

/-- Well-formedness of a dataset state, as established by `__init__`:
`_keylen_cumulative` is the cumulative sum of the owned-key-list lengths,
`num_samples` is their total, and there is one opened environment per
owned-key list. -/
@[reducible]
def WF (ds : Dataset) : Prop :=
  ds.keylen_cumulative = cumsum (ds.keys.map List.length) ∧
  ds.num_samples = (ds.keys.map List.length).sum ∧
  ds.envs.length = ds.keys.length

/-- Every owned key of every shard fetches bytes that deserialize to a data
record (a structurally intact dataset). -/
@[reducible]
def ValidStores (loads : Bytes → Option Value) (ds : Dataset) : Prop :=
  ∀ s, s < ds.keys.length → ∀ k ∈ (ds.keys[s]?).getD [],
    (match ((ds.envs[s]?).getD (fun _ => none) (toString k)).bind loads with
      | some (.data _) => true
      | _ => false) = true

/- Concrete stores used to instantiate the theorems. -/

/-- A concrete `pickle.loads`: `[0, n]` encodes the integer `n`, `[1, n]`
encodes a record with payload `n`; anything else fails to deserialize. -/
def demoLoads : Bytes → Option Value
  | [0, n] => some (.nat n)
  | [1, n] => some (.data { edge_index := none, id := "orig", payload := n })
  | _ => none

/-- A store holding `L` records: the "length" metadata key plus a record under
every other key. -/
def demoEnv (L : Nat) : Env := fun k =>
  if k = "length" then some [0, L] else some [1, 0]

/-- A source directory with two shards of 5 and 3 records. -/
def demoFs : String → Env := fun p =>
  if p = "a.lmdb" then demoEnv 5 else demoEnv 3

/-- The dataset `__init__` builds from `demoFs` with world_size 1, rank 0. -/
def demoDS : Dataset :=
  { db_paths := ["a.lmdb", "b.lmdb"]
    envs := [demoFs "a.lmdb", demoFs "b.lmdb"]
    keys := [List.range 5, List.range 3]
    keylen_cumulative := [5, 8]
    num_samples := 8
    env := none }

/-- A dataset whose second shard contributes zero owned keys (a shared shard
with declared length 1 under world_size 2 at rank 1: trimmed length 0). -/
def demoDS2 : Dataset :=
  { db_paths := ["b.lmdb", "c.lmdb"]
    envs := [demoEnv 3, demoEnv 1]
    keys := [[0, 1, 2], []]
    keylen_cumulative := [3, 3]
    num_samples := 3
    env := none }

/-- A source directory whose single shard declares 10 records. -/
def demoFs10 : String → Env := fun _ => demoEnv 10

/-- The owned-key lists of the rank-`r` worker over the single shared shard of
10 records under world_size 3. -/
def keysAtRank (r : Nat) : List (List Nat) :=
  match init demoFs10 demoLoads ["c.lmdb"] 3 r with
  | .ok ds => ds.keys
  | .error _ => []

/-- A transform that rewrites the payload and plants its own id. -/
def demoT : DataObject → DataObject :=
  fun d => { d with payload := d.payload + 1, id := "junk" }

/-- A store with no entries at all (in particular no "length" key). -/
def badFs : String → Env := fun _ => fun _ => none

/-- Two records carrying edge-connectivity matrices with 2 and 0 edges. -/
def demoRecords : List DataObject :=
  [{ edge_index := some ([1, 2], [3, 4]), id := "x", payload := 0 },
   { edge_index := some ([], []), id := "y", payload := 1 }]

/-- The success value of `init`: owned paths are the strided slice of fully
owned shards followed by the shared tail; owned keys per `builtKeys`. -/
def expectedDS (fs : String → Env) (db_paths : List String)
    (world_size rank : Nat) (L : String → Nat) : Dataset :=
  { db_paths := sliceStep db_paths rank (numFull db_paths.length world_size)
        world_size ++ db_paths.drop (numFull db_paths.length world_size)
    envs := (sliceStep db_paths rank (numFull db_paths.length world_size)
        world_size ++ db_paths.drop (numFull db_paths.length world_size)).map fs
    keys := builtKeys rank world_size
        ((sliceStep db_paths rank (numFull db_paths.length world_size)
          world_size).map L)
        ((db_paths.drop (numFull db_paths.length world_size)).map L)
    keylen_cumulative := cumsum ((builtKeys rank world_size
        ((sliceStep db_paths rank (numFull db_paths.length world_size)
          world_size).map L)
        ((db_paths.drop (numFull db_paths.length world_size)).map L)).map
          List.length)
    num_samples := ((builtKeys rank world_size
        ((sliceStep db_paths rank (numFull db_paths.length world_size)
          world_size).map L)
        ((db_paths.drop (numFull db_paths.length world_size)).map L)).map
          List.length).sum
    env := none }

/- Helper lemmas: correctness of the embedded `bisect.bisect_right` loop. -/

theorem bisectLoop_spec (a : List Nat) (x : Int)
    (hmono : ∀ i j, i ≤ j → j < a.length → a[i]?.getD 0 ≤ a[j]?.getD 0) :
    ∀ (fuel lo hi : Nat), lo ≤ hi → hi ≤ a.length → hi - lo ≤ fuel →
    (∀ i, i < lo → ((a[i]?.getD 0 : Nat) : Int) ≤ x) →
    (∀ i, hi ≤ i → i < a.length → x < ((a[i]?.getD 0 : Nat) : Int)) →
    lo ≤ bisectLoop a x fuel lo hi ∧ bisectLoop a x fuel lo hi ≤ hi ∧
    (∀ i, i < bisectLoop a x fuel lo hi → ((a[i]?.getD 0 : Nat) : Int) ≤ x) ∧
    (∀ i, bisectLoop a x fuel lo hi ≤ i → i < a.length →
      x < ((a[i]?.getD 0 : Nat) : Int)) := by
  intro fuel
  induction fuel with
  | zero =>
    intro lo hi hlohi hhil hfuel hlo hhi
    have heq : lo = hi := by omega
    subst heq
    exact ⟨le_refl _, le_refl _, hlo, hhi⟩
  | succ fuel ih =>
    intro lo hi hlohi hhil hfuel hlo hhi
    by_cases h : lo < hi
    · have hmid1 : lo ≤ (lo + hi) / 2 := by omega
      have hmid2 : (lo + hi) / 2 < hi := by omega
      simp only [bisectLoop, if_pos h]
      by_cases hx : x < ((a[(lo + hi) / 2]?.getD 0 : Nat) : Int)
      · rw [if_pos hx]
        have hnew : ∀ i, (lo + hi) / 2 ≤ i → i < a.length →
            x < ((a[i]?.getD 0 : Nat) : Int) := by
          intro i h1 h2
          have hle : a[(lo + hi) / 2]?.getD 0 ≤ a[i]?.getD 0 := hmono _ i h1 h2
          have hle2 : ((a[(lo + hi) / 2]?.getD 0 : Nat) : Int) ≤
              ((a[i]?.getD 0 : Nat) : Int) := by exact_mod_cast hle
          omega
        obtain ⟨c1, c2, c3, c4⟩ := ih lo ((lo + hi) / 2) hmid1 (by omega) (by omega)
          hlo hnew
        exact ⟨c1, by omega, c3, c4⟩
      · rw [if_neg hx]
        have hnew : ∀ i, i < (lo + hi) / 2 + 1 → ((a[i]?.getD 0 : Nat) : Int) ≤ x := by
          intro i h1
          have hle : a[i]?.getD 0 ≤ a[(lo + hi) / 2]?.getD 0 :=
            hmono i _ (by omega) (by omega)
          have hle2 : ((a[i]?.getD 0 : Nat) : Int) ≤
              ((a[(lo + hi) / 2]?.getD 0 : Nat) : Int) := by exact_mod_cast hle
          omega
        obtain ⟨c1, c2, c3, c4⟩ := ih ((lo + hi) / 2 + 1) hi (by omega) hhil (by omega)
          hnew hhi
        exact ⟨by omega, c2, c3, c4⟩
    · have heq : lo = hi := by omega
      subst heq
      simp only [bisectLoop, if_neg h]
      exact ⟨le_refl _, le_refl _, hlo, hhi⟩

theorem bisect_spec (a : List Nat) (x : Int)
    (hmono : ∀ i j, i ≤ j → j < a.length → a[i]?.getD 0 ≤ a[j]?.getD 0) :
    bisect a x ≤ a.length ∧
    (∀ i, i < bisect a x → ((a[i]?.getD 0 : Nat) : Int) ≤ x) ∧
    (∀ i, bisect a x ≤ i → i < a.length → x < ((a[i]?.getD 0 : Nat) : Int)) := by
  have h := bisectLoop_spec a x hmono a.length 0 a.length (Nat.zero_le _) (le_refl _)
    (by omega) (fun i hi => absurd hi (Nat.not_lt_zero i))
    (fun i h1 h2 => absurd h2 (by omega))
  exact ⟨h.2.1, h.2.2.1, h.2.2.2⟩

theorem bisect_eq_of_char (a : List Nat) (x : Int)
    (hmono : ∀ i j, i ≤ j → j < a.length → a[i]?.getD 0 ≤ a[j]?.getD 0)
    (s : Nat) (hs1 : s ≤ a.length)
    (hs2 : ∀ i, i < s → ((a[i]?.getD 0 : Nat) : Int) ≤ x)
    (hs3 : s < a.length → x < ((a[s]?.getD 0 : Nat) : Int)) :
    bisect a x = s := by
  obtain ⟨h1, h2, h3⟩ := bisect_spec a x hmono
  rcases Nat.lt_trichotomy (bisect a x) s with h | h | h
  · have ha := hs2 _ h
    have hb := h3 _ (le_refl _) (by omega)
    omega
  · exact h
  · have ha := h2 s h
    have hb := hs3 (by omega)
    omega

/- Helper lemmas: `np.cumsum` as prefix sums. -/

theorem cumsum_length (l : List Nat) : (cumsum l).length = l.length := by
  simp [cumsum]

theorem cumsum_getElem? (l : List Nat) (i : Nat) (h : i < l.length) :
    (cumsum l)[i]? = some ((l.take (i + 1)).sum) := by
  simp [cumsum, List.getElem?_map, List.getElem?_range h]

theorem sum_take_mono (l : List Nat) (a b : Nat) (h : a ≤ b) :
    (l.take a).sum ≤ (l.take b).sum := by
  have h1 : List.take a (List.take b l) = List.take a l := by
    rw [List.take_take, min_eq_left h]
  calc (List.take a l).sum
      ≤ (List.take a (List.take b l)).sum + (List.drop a (List.take b l)).sum := by
        rw [h1]; exact Nat.le_add_right _ _
    _ = (List.take b l).sum := List.sum_take_add_sum_drop _ _

theorem sum_take_succ (l : List Nat) (i : Nat) (h : i < l.length) :
    (l.take (i + 1)).sum = (l.take i).sum + l[i]?.getD 0 := by
  rw [List.take_succ, List.sum_append, List.getElem?_eq_getElem h]
  simp

theorem cumsum_mono (l : List Nat) :
    ∀ i j, i ≤ j → j < (cumsum l).length →
      (cumsum l)[i]?.getD 0 ≤ (cumsum l)[j]?.getD 0 := by
  intro i j hij hj
  rw [cumsum_length] at hj
  rw [cumsum_getElem? l i (by omega), cumsum_getElem? l j hj]
  simpa using sum_take_mono l (i + 1) (j + 1) (by omega)

/- Helper lemmas: characterization of the resolution performed by
`__getitem__` on a well-formed dataset. -/

theorem keys_len_get (ds : Dataset) (s : Nat) (hs : s < ds.keys.length) :
    (ds.keys.map List.length)[s]?.getD 0 = ((ds.keys[s]?).getD []).length := by
  rw [List.getElem?_map, List.getElem?_eq_getElem hs]
  simp

theorem wf_cum_get (ds : Dataset) (hWF : WF ds) (i : Nat) (hi : i < ds.keys.length) :
    ds.keylen_cumulative[i]?.getD 0 = ((ds.keys.map List.length).take (i + 1)).sum := by
  rw [hWF.1, cumsum_getElem? _ i (by simpa using hi)]
  simp

theorem wf_cum_mono (ds : Dataset) (hWF : WF ds) :
    ∀ i j, i ≤ j → j < ds.keylen_cumulative.length →
      ds.keylen_cumulative[i]?.getD 0 ≤ ds.keylen_cumulative[j]?.getD 0 := by
  intro i j hij hj
  rw [hWF.1] at hj ⊢
  exact cumsum_mono _ i j hij hj

theorem wf_cum_length (ds : Dataset) (hWF : WF ds) :
    ds.keylen_cumulative.length = ds.keys.length := by
  rw [hWF.1, cumsum_length]
  simp

theorem wf_keys_pos (ds : Dataset) (hWF : WF ds) (hN : 0 < ds.num_samples) :
    0 < ds.keys.length := by
  by_contra h
  have h0 : ds.keys = [] := by
    cases hk : ds.keys with
    | nil => rfl
    | cons a l => rw [hk] at h; simp at h
  have := hWF.2.1
  rw [h0] at this
  simp at this
  omega

theorem resolve_fst (ds : Dataset) (idx : Int) :
    (resolve ds idx).1 = bisect ds.keylen_cumulative idx := rfl

theorem resolve_snd (ds : Dataset) (idx : Int) :
    (resolve ds idx).2 =
      if bisect ds.keylen_cumulative idx ≠ 0 then
        idx - ((ds.keylen_cumulative[bisect ds.keylen_cumulative idx - 1]?.getD 0 : Nat) : Int)
      else idx := rfl

theorem resolve_char (ds : Dataset) (hWF : WF ds) (idx : Nat)
    (hidx : idx < ds.num_samples) :
    (resolve ds ↑idx).1 < ds.keys.length ∧
    (resolve ds ↑idx).2 =
      (idx : Int) - ((((ds.keys.map List.length).take (resolve ds ↑idx).1).sum : Nat) : Int) ∧
    0 ≤ (resolve ds ↑idx).2 ∧
    (resolve ds ↑idx).2.toNat < ((ds.keys[(resolve ds ↑idx).1]?).getD []).length ∧
    (∀ j, j < (resolve ds ↑idx).1 → ds.keylen_cumulative[j]?.getD 0 ≤ idx) ∧
    idx < ds.keylen_cumulative[(resolve ds ↑idx).1]?.getD 0 := by
  have hmono := wf_cum_mono ds hWF
  have hclen := wf_cum_length ds hWF
  have hn0 : 0 < ds.keys.length := wf_keys_pos ds hWF (by omega)
  obtain ⟨hb1, hb2, hb3⟩ := bisect_spec ds.keylen_cumulative ↑idx hmono
  rw [resolve_fst, resolve_snd]
  set s := bisect ds.keylen_cumulative ↑idx with hsdef
  have hlml : (ds.keys.map List.length).length = ds.keys.length := by simp
  -- the chosen shard index is in range
  have hslt : s < ds.keys.length := by
    by_contra hcon
    have hseq : s = ds.keys.length := by omega
    have h2 := hb2 (ds.keys.length - 1) (by omega)
    rw [wf_cum_get ds hWF _ (by omega)] at h2
    have h3 : ds.keys.length - 1 + 1 = ds.keys.length := by omega
    rw [h3] at h2
    have h4 : ((ds.keys.map List.length).take (ds.keys.map List.length).length).sum =
        (ds.keys.map List.length).sum := by rw [List.take_length]
    rw [← hlml, h4] at h2
    have h5 : (ds.keys.map List.length).sum ≤ idx := by exact_mod_cast h2
    have := hWF.2.1
    omega
  -- the local offset equals idx minus the sum of the preceding lengths
  have hprev : (if s ≠ 0 then
      (idx : Int) - ((ds.keylen_cumulative[s - 1]?.getD 0 : Nat) : Int) else (idx : Int)) =
      (idx : Int) - ((((ds.keys.map List.length).take s).sum : Nat) : Int) := by
    by_cases h0 : s = 0
    · rw [if_neg (by simp [h0]), h0]
      simp
    · rw [if_pos h0]
      rw [wf_cum_get ds hWF _ (by omega)]
      have : s - 1 + 1 = s := by omega
      rw [this]
  have hple : ((ds.keys.map List.length).take s).sum ≤ idx := by
    by_cases h0 : s = 0
    · simp [h0]
    · have h2 := hb2 (s - 1) (by omega)
      rw [wf_cum_get ds hWF _ (by omega)] at h2
      have h3 : s - 1 + 1 = s := by omega
      rw [h3] at h2
      exact_mod_cast h2
  have hcums : idx < ds.keylen_cumulative[s]?.getD 0 := by
    have h2 := hb3 s (le_refl _) (by omega)
    exact_mod_cast h2
  have hcums2 : ds.keylen_cumulative[s]?.getD 0 =
      ((ds.keys.map List.length).take s).sum + ((ds.keys[s]?).getD []).length := by
    rw [wf_cum_get ds hWF _ hslt, sum_take_succ _ s (by omega), keys_len_get ds s hslt]
  refine ⟨hslt, hprev, ?_, ?_, ?_, hcums⟩
  · rw [hprev]; omega
  · rw [hprev]
    omega
  · intro j hj
    have h2 := hb2 j hj
    exact_mod_cast h2

theorem resolve_of_pair (ds : Dataset) (hWF : WF ds) (s o : Nat)
    (hs : s < ds.keys.length) (ho : o < ((ds.keys[s]?).getD []).length) :
    ((ds.keys.map List.length).take s).sum + o < ds.num_samples ∧
    resolve ds ↑(((ds.keys.map List.length).take s).sum + o) = (s, (o : Int)) := by
  have hmono := wf_cum_mono ds hWF
  have hclen := wf_cum_length ds hWF
  have hlml : (ds.keys.map List.length).length = ds.keys.length := by simp
  have hsucc : ((ds.keys.map List.length).take (s + 1)).sum =
      ((ds.keys.map List.length).take s).sum + ((ds.keys[s]?).getD []).length := by
    rw [sum_take_succ _ s (by omega), keys_len_get ds s hs]
  have hlt : ((ds.keys.map List.length).take s).sum + o < ds.num_samples := by
    have h1 : ((ds.keys.map List.length).take s).sum + o <
        ((ds.keys.map List.length).take (s + 1)).sum := by omega
    have h2 : ((ds.keys.map List.length).take (s + 1)).sum ≤
        (ds.keys.map List.length).sum := by
      have := sum_take_mono (ds.keys.map List.length) (s + 1)
        (ds.keys.map List.length).length (by omega)
      rw [List.take_length] at this
      exact this
    have := hWF.2.1
    omega
  have hbis : bisect ds.keylen_cumulative
      ↑(((ds.keys.map List.length).take s).sum + o) = s := by
    apply bisect_eq_of_char _ _ hmono s (by omega)
    · intro i hi
      rw [wf_cum_get ds hWF _ (by omega)]
      have h1 : ((ds.keys.map List.length).take (i + 1)).sum ≤
          ((ds.keys.map List.length).take s).sum := sum_take_mono _ _ _ (by omega)
      have h2 : ((ds.keys.map List.length).take (i + 1)).sum ≤
          ((ds.keys.map List.length).take s).sum + o := by omega
      exact_mod_cast h2
    · intro hsl
      rw [wf_cum_get ds hWF _ (by omega)]
      have h1 : ((ds.keys.map List.length).take s).sum + o <
          ((ds.keys.map List.length).take (s + 1)).sum := by omega
      exact_mod_cast h1
  refine ⟨hlt, ?_⟩
  rw [Prod.ext_iff, resolve_fst, resolve_snd, hbis]
  refine ⟨rfl, ?_⟩
  by_cases h0 : s = 0
  · rw [if_neg (by simp [h0])]
    have : ((ds.keys.map List.length).take s).sum = 0 := by rw [h0]; simp
    rw [this]
    simp
  · rw [if_pos h0]
    rw [wf_cum_get ds hWF _ (by omega)]
    have h1 : s - 1 + 1 = s := by omega
    rw [h1]
    push_cast
    omega

/- Helper lemmas: behaviour of `__getitem__` at in-range and out-of-range
indices. -/

theorem deserializeStep_data (loads : Bytes → Option Value)
    (transform : Option (DataObject → DataObject)) (db el : Nat)
    (b : Bytes) (d0 : DataObject) (hb : loads b = some (.data d0)) :
    deserializeStep loads transform db el (some b) =
      .ok { (match transform with | some t => t d0 | none => d0) with
            id := toString db ++ "_" ++ toString el } := by
  simp only [deserializeStep, hb]

theorem getitem_eq_step (ds : Dataset) (hWF : WF ds)
    (loads : Bytes → Option Value) (transform : Option (DataObject → DataObject))
    (idx : Nat) (hidx : idx < ds.num_samples) :
    getitem loads ds transform ↑idx =
      deserializeStep loads transform (resolve ds ↑idx).1 (resolve ds ↑idx).2.toNat
        (((ds.envs[(resolve ds ↑idx).1]?).getD (fun _ => none))
          (toString (((ds.keys[(resolve ds ↑idx).1]?).getD
            [])[(resolve ds ↑idx).2.toNat]?.getD 0))) := by
  obtain ⟨hslt, _, hpos, hlen, _, _⟩ := resolve_char ds hWF idx hidx
  have hkeys : ds.keys[(resolve ds ↑idx).1]? = some (ds.keys[(resolve ds ↑idx).1]) :=
    List.getElem?_eq_getElem hslt
  have henvlt : (resolve ds ↑idx).1 < ds.envs.length := by rw [hWF.2.2]; exact hslt
  have henvs : ds.envs[(resolve ds ↑idx).1]? = some (ds.envs[(resolve ds ↑idx).1]) :=
    List.getElem?_eq_getElem henvlt
  have hlen2 : (resolve ds ↑idx).2.toNat < (ds.keys[(resolve ds ↑idx).1]).length := by
    rw [hkeys] at hlen
    simpa using hlen
  have hkey : (ds.keys[(resolve ds ↑idx).1])[(resolve ds ↑idx).2.toNat]? =
      some ((ds.keys[(resolve ds ↑idx).1])[(resolve ds ↑idx).2.toNat]) :=
    List.getElem?_eq_getElem hlen2
  unfold getitem
  rw [if_neg (by omega)]
  rw [henvs, hkeys]
  simp only [Option.some_bind, hkey, Option.getD_some]

theorem getitem_isOk (ds : Dataset) (hWF : WF ds)
    (loads : Bytes → Option Value) (transform : Option (DataObject → DataObject))
    (idx : Nat) (hidx : idx < ds.num_samples) (hvalid : ValidStores loads ds) :
    (getitem loads ds transform ↑idx).isOk = true := by
  obtain ⟨hslt, _, hpos, hlen, _, _⟩ := resolve_char ds hWF idx hidx
  rw [getitem_eq_step ds hWF loads transform idx hidx]
  have hmem : ((ds.keys[(resolve ds ↑idx).1]?).getD
      [])[(resolve ds ↑idx).2.toNat]?.getD 0 ∈ (ds.keys[(resolve ds ↑idx).1]?).getD [] := by
    rw [List.getElem?_eq_getElem hlen]
    exact List.getElem_mem hlen
  have hv := hvalid (resolve ds ↑idx).1 hslt _ hmem
  cases hraw : ((ds.envs[(resolve ds ↑idx).1]?).getD (fun _ => none))
      (toString (((ds.keys[(resolve ds ↑idx).1]?).getD
        [])[(resolve ds ↑idx).2.toNat]?.getD 0)) with
  | none =>
    rw [hraw, Option.none_bind] at hv
    exact absurd hv (by simp)
  | some b =>
    rw [hraw, Option.some_bind] at hv
    cases hl : loads b with
    | none =>
      rw [hl] at hv
      exact absurd hv (by simp)
    | some v =>
      rw [hl] at hv
      cases v with
      | nat n =>
        exact absurd hv (by simp)
      | data d =>
        rw [deserializeStep_data loads transform _ _ b d hl]
        rfl

theorem getitem_out_of_range (ds : Dataset) (hWF : WF ds)
    (loads : Bytes → Option Value) (transform : Option (DataObject → DataObject))
    (idx : Int) (hidx : (ds.num_samples : Int) ≤ idx) (hN : 0 < ds.num_samples) :
    getitem loads ds transform idx = .error .indexOutOfRange := by
  have hmono := wf_cum_mono ds hWF
  have hclen := wf_cum_length ds hWF
  have hn0 : 0 < ds.keys.length := wf_keys_pos ds hWF hN
  have hlml : (ds.keys.map List.length).length = ds.keys.length := by simp
  have hbis : bisect ds.keylen_cumulative idx = ds.keys.length := by
    apply bisect_eq_of_char _ _ hmono _ (by omega)
    · intro i hi
      rw [wf_cum_get ds hWF _ (by omega)]
      have h1 : ((ds.keys.map List.length).take (i + 1)).sum ≤
          (ds.keys.map List.length).sum := by
        have := sum_take_mono (ds.keys.map List.length) (i + 1)
          (ds.keys.map List.length).length (by omega)
        rw [List.take_length] at this
        exact this
      have h2 : ((ds.keys.map List.length).take (i + 1)).sum ≤ ds.num_samples := by
        have := hWF.2.1
        omega
      have h3 : (((ds.keys.map List.length).take (i + 1)).sum : Int) ≤
          (ds.num_samples : Int) := by exact_mod_cast h2
      omega
    · intro h
      omega
  have hlast : ds.keylen_cumulative[ds.keys.length - 1]?.getD 0 = ds.num_samples := by
    rw [wf_cum_get ds hWF _ (by omega)]
    have h1 : ds.keys.length - 1 + 1 = ds.keys.length := by omega
    rw [h1, ← hlml, List.take_length]
    exact hWF.2.1.symm
  unfold getitem
  rw [resolve_snd, resolve_fst, hbis, hlast]
  rw [if_pos (show ds.keys.length ≠ 0 by omega)]
  rw [if_neg (show ¬(idx - (ds.num_samples : Int) < 0) by omega)]
  rw [List.getElem?_eq_none (le_refl ds.keys.length), Option.none_bind]
  rw [List.getElem?_eq_none (show ds.envs.length ≤ ds.keys.length by rw [hWF.2.2])]

theorem getitem_negative (ds : Dataset) (hWF : WF ds)
    (loads : Bytes → Option Value) (transform : Option (DataObject → DataObject))
    (idx : Int) (hidx : idx < 0) :
    getitem loads ds transform idx = .error .indexOutOfRange := by
  have hmono := wf_cum_mono ds hWF
  have hbis : bisect ds.keylen_cumulative idx = 0 := by
    apply bisect_eq_of_char _ _ hmono 0 (Nat.zero_le _)
    · intro i hi
      exact absurd hi (Nat.not_lt_zero i)
    · intro h
      have : (0 : Int) ≤ ((ds.keylen_cumulative[0]?.getD 0 : Nat) : Int) := by positivity
      omega
  unfold getitem
  rw [resolve_snd, resolve_fst, hbis]
  rw [if_neg (show ¬(0 ≠ 0) by simp)]
  rw [if_pos hidx]

/- Helper lemmas: `List.mapM` over `Except`, and `__init__`. -/

theorem mapM_ok_of_forall {α β : Type} (f : α → Except InitError β) (g : α → β)
    (l : List α) (h : ∀ a ∈ l, f a = .ok (g a)) : l.mapM f = .ok (l.map g) := by
  induction l with
  | nil => rfl
  | cons a l ih =>
    rw [List.mapM_cons, h a (List.mem_cons_self a l),
      ih (fun b hb => h b (List.mem_cons_of_mem a hb))]
    rfl

theorem mapM_mem_ok {α β : Type} (f : α → Except InitError β) (l : List α)
    (bs : List β) (h : l.mapM f = .ok bs) : ∀ a ∈ l, ∃ b, f a = .ok b := by
  induction l generalizing bs with
  | nil => intro a ha; cases ha
  | cons a l ih =>
    rw [List.mapM_cons] at h
    cases hfa : f a with
    | error e =>
      rw [hfa] at h
      exact absurd h (by intro hh; cases hh)
    | ok b =>
      rw [hfa] at h
      cases hml : l.mapM f with
      | error e =>
        rw [hml] at h
        exact absurd h (by intro hh; cases hh)
      | ok bs2 =>
        rw [hml] at h
        intro c hc
        rcases List.mem_cons.mp hc with rfl | hc2
        · exact ⟨b, hfa⟩
        · exact ih bs2 hml c hc2

theorem mapM_error_mem {α β : Type} (f : α → Except InitError β) (e : InitError) :
    ∀ l : List α, l.mapM f = Except.error e → ∃ a ∈ l, f a = .error e := by
  intro l
  induction l with
  | nil =>
    intro h
    exact absurd h (by intro hh; cases hh)
  | cons a l ih =>
    intro h
    rw [List.mapM_cons] at h
    cases hfa : f a with
    | error e2 =>
      rw [hfa] at h
      have he : e2 = e := by cases h; rfl
      exact ⟨a, List.mem_cons_self a l, by rw [hfa, he]⟩
    | ok b =>
      rw [hfa] at h
      cases hml : l.mapM f with
      | error e2 =>
        rw [hml] at h
        have he : e2 = e := by cases h; rfl
        obtain ⟨c, hc, hce⟩ := ih (by rw [hml, he])
        exact ⟨c, List.mem_cons_of_mem a hc, hce⟩
      | ok bs =>
        rw [hml] at h
        exact absurd h (by intro hh; cases hh)

theorem mapM_length {α β : Type} (f : α → Except InitError β) :
    ∀ (l : List α) (bs : List β), l.mapM f = .ok bs → bs.length = l.length := by
  intro l
  induction l with
  | nil =>
    intro bs h
    cases h
    rfl
  | cons a l ih =>
    intro bs h
    rw [List.mapM_cons] at h
    cases hfa : f a with
    | error e =>
      rw [hfa] at h
      exact absurd h (by intro hh; cases hh)
    | ok b =>
      rw [hfa] at h
      cases hml : l.mapM f with
      | error e =>
        rw [hml] at h
        exact absurd h (by intro hh; cases hh)
      | ok bs2 =>
        rw [hml] at h
        cases h
        simp [ih bs2 hml]

theorem readLength_error (fs : String → Env) (loads : Bytes → Option Value)
    (p : String) (e : InitError) (h : readLength fs loads p = .error e) :
    e = .malformedShard := by
  unfold readLength at h
  split at h
  · cases h; rfl
  · split at h
    · cases h
    · cases h; rfl

theorem sliceStep_subset {α : Type} (l : List α) (a b c : Nat) :
    ∀ x ∈ sliceStep l a b c, x ∈ l := by
  intro x hx
  rcases List.mem_filterMap.mp hx with ⟨i, _, hget⟩
  exact List.mem_iff_getElem?.mpr ⟨i, hget⟩

/- Helper lemmas: the rank-strided partition of the fully owned shards. -/

theorem mem_pyRange3 (start stop step i : Nat) :
    i ∈ pyRange3 start stop step ↔
      i < stop ∧ start ≤ i ∧ (i - start) % step = 0 := by
  simp only [pyRange3, List.mem_filter, List.mem_range, Bool.and_eq_true,
    decide_eq_true_eq, beq_iff_eq]

theorem stride_char (w r i : Nat) (_hw : 0 < w) (hr : r < w) :
    (r ≤ i ∧ (i - r) % w = 0) ↔ i % w = r := by
  constructor
  · rintro ⟨h1, h2⟩
    obtain ⟨k, hk⟩ := Nat.dvd_of_mod_eq_zero h2
    have hik : i = r + w * k := by omega
    rw [hik, Nat.add_mul_mod_self_left, Nat.mod_eq_of_lt hr]
  · intro h
    constructor
    · calc r = i % w := h.symm
        _ ≤ i := Nat.mod_le i w
    · have hd := Nat.div_add_mod i w
      have h2 : i - r = w * (i / w) := by omega
      rw [h2]
      exact Nat.mul_mod_right w _

theorem mem_sliceStep (l : List α) (w r : Nat) (q : α) (hw : 0 < w) (hr : r < w) :
    q ∈ sliceStep l r (numFull l.length w) w ↔
      ∃ i, i < numFull l.length w ∧ i % w = r ∧ l[i]? = some q := by
  unfold sliceStep
  have hmin : min (numFull l.length w) l.length = numFull l.length w := by
    unfold numFull
    omega
  rw [hmin]
  rw [List.mem_filterMap]
  constructor
  · rintro ⟨i, hi, h4⟩
    obtain ⟨h1, h2, h3⟩ := (mem_pyRange3 _ _ _ _).mp hi
    exact ⟨i, h1, (stride_char w r i hw hr).mp ⟨h2, h3⟩, h4⟩
  · rintro ⟨i, h1, h2, h3⟩
    obtain ⟨h4, h5⟩ := (stride_char w r i hw hr).mpr h2
    exact ⟨i, (mem_pyRange3 _ _ _ _).mpr ⟨h1, h4, h5⟩, h3⟩

/- Helper lemmas: the dataset state `__init__` constructs. -/

theorem init_ok_eq (fs : String → Env) (loads : Bytes → Option Value)
    (db_paths : List String) (world_size rank : Nat) (L : String → Nat)
    (hne : db_paths ≠ [])
    (hfs : ∀ p ∈ db_paths, readLength fs loads p = .ok (L p)) :
    init fs loads db_paths world_size rank =
      .ok (expectedDS fs db_paths world_size rank L) := by
  have hlen : ¬ db_paths.length = 0 := by
    intro h
    exact hne (List.length_eq_zero.mp h)
  have h1 : (sliceStep db_paths rank (numFull db_paths.length world_size)
      world_size).mapM (readLength fs loads) =
      .ok ((sliceStep db_paths rank (numFull db_paths.length world_size)
        world_size).map L) :=
    mapM_ok_of_forall _ _ _ (fun p hp => hfs p (sliceStep_subset _ _ _ _ p hp))
  have h2 : (db_paths.drop (numFull db_paths.length world_size)).mapM
      (readLength fs loads) =
      .ok ((db_paths.drop (numFull db_paths.length world_size)).map L) :=
    mapM_ok_of_forall _ _ _ (fun p hp => hfs p (List.drop_subset _ _ hp))
  unfold init
  rw [if_neg hlen, h1, h2]
  rfl

theorem init_error_of_bad (fs : String → Env) (loads : Bytes → Option Value)
    (db_paths : List String) (world_size rank : Nat)
    (hne : db_paths ≠ []) (p : String)
    (hp : p ∈ sliceStep db_paths rank (numFull db_paths.length world_size)
        world_size ++ db_paths.drop (numFull db_paths.length world_size))
    (hbad : readLength fs loads p = .error .malformedShard) :
    init fs loads db_paths world_size rank = .error .malformedShard := by
  have hlen : ¬ db_paths.length = 0 := by
    intro h
    exact hne (List.length_eq_zero.mp h)
  unfold init
  rw [if_neg hlen]
  cases hfull : (sliceStep db_paths rank (numFull db_paths.length world_size)
      world_size).mapM (readLength fs loads) with
  | error e =>
    obtain ⟨a, _, hae⟩ := mapM_error_mem _ e _ hfull
    have he := readLength_error _ _ _ _ hae
    subst he
    cases hsh : (db_paths.drop (numFull db_paths.length world_size)).mapM
      (readLength fs loads) <;> rfl
  | ok fullLens =>
    rcases List.mem_append.mp hp with hpf | hps
    · obtain ⟨b, hb⟩ := mapM_mem_ok _ _ _ hfull p hpf
      rw [hbad] at hb
      cases hb
    · cases hshared : (db_paths.drop (numFull db_paths.length world_size)).mapM
          (readLength fs loads) with
      | error e =>
        obtain ⟨a, _, hae⟩ := mapM_error_mem _ e _ hshared
        have he := readLength_error _ _ _ _ hae
        subst he
        rfl
      | ok sharedLens =>
        obtain ⟨b, hb⟩ := mapM_mem_ok _ _ _ hshared p hps
        rw [hbad] at hb
        cases hb

theorem expectedDS_WF (fs : String → Env) (db_paths : List String)
    (world_size rank : Nat) (L : String → Nat) :
    WF (expectedDS fs db_paths world_size rank L) := by
  refine ⟨rfl, rfl, ?_⟩
  unfold expectedDS builtKeys
  simp [numFull]

theorem init_WF (fs : String → Env) (loads : Bytes → Option Value)
    (db_paths : List String) (world_size rank : Nat) (ds : Dataset)
    (h : init fs loads db_paths world_size rank = .ok ds) : WF ds := by
  unfold init at h
  by_cases hlen : db_paths.length = 0
  · rw [if_pos hlen] at h
    cases h
  · rw [if_neg hlen] at h
    cases hfull : (sliceStep db_paths rank (numFull db_paths.length world_size)
        world_size).mapM (readLength fs loads) with
    | error e =>
      rw [hfull] at h
      cases hshared : (db_paths.drop (numFull db_paths.length world_size)).mapM
          (readLength fs loads) with
      | error e2 => rw [hshared] at h; cases h
      | ok bs => rw [hshared] at h; cases h
    | ok fullLens =>
      rw [hfull] at h
      cases hshared : (db_paths.drop (numFull db_paths.length world_size)).mapM
          (readLength fs loads) with
      | error e =>
        rw [hshared] at h
        cases h
      | ok sharedLens =>
        rw [hshared] at h
        cases h
        refine ⟨rfl, rfl, ?_⟩
        unfold builtKeys
        simp only [List.length_append, List.length_map, List.length_drop]
        rw [mapM_length _ _ _ hfull, mapM_length _ _ _ hshared]
        simp

theorem init_env_none (fs : String → Env) (loads : Bytes → Option Value)
    (db_paths : List String) (world_size rank : Nat) (ds : Dataset)
    (h : init fs loads db_paths world_size rank = .ok ds) : ds.env = none := by
  unfold init at h
  by_cases hlen : db_paths.length = 0
  · rw [if_pos hlen] at h
    cases h
  · rw [if_neg hlen] at h
    cases hfull : (sliceStep db_paths rank (numFull db_paths.length world_size)
        world_size).mapM (readLength fs loads) with
    | error e =>
      rw [hfull] at h
      cases hshared : (db_paths.drop (numFull db_paths.length world_size)).mapM
          (readLength fs loads) with
      | error e2 => rw [hshared] at h; cases h
      | ok bs => rw [hshared] at h; cases h
    | ok fullLens =>
      rw [hfull] at h
      cases hshared : (db_paths.drop (numFull db_paths.length world_size)).mapM
          (readLength fs loads) with
      | error e =>
        rw [hshared] at h
        cases h
      | ok sharedLens =>
        rw [hshared] at h
        cases h
        rfl

/- Claim theorems. -/

/-- C1: for every global index idx in [0, total_length), `__getitem__` picks
`db_idx` as the first index whose cumulative owned-key length strictly exceeds
idx (upper-bound binary search over the monotonically non-decreasing
`_keylen_cumulative`), computes
`el_idx = idx - (db_idx == 0 ? 0 : _keylen_cumulative[db_idx - 1])`, and looks
the record up under the store key `_keys[db_idx][el_idx]`. -/
theorem c1_global_index_resolution (ds : Dataset)
    (loads : Bytes → Option Value) (transform : Option (DataObject → DataObject))
    (hWF : WF ds) (idx : Nat) (hidx : idx < ds.num_samples) :
    ((∀ j, j < (resolve ds ↑idx).1 → ds.keylen_cumulative[j]?.getD 0 ≤ idx) ∧
      idx < ds.keylen_cumulative[(resolve ds ↑idx).1]?.getD 0) ∧
    (resolve ds ↑idx).2 = ↑idx - (if (resolve ds ↑idx).1 = 0 then 0
      else ((ds.keylen_cumulative[(resolve ds ↑idx).1 - 1]?.getD 0 : Nat) : Int)) ∧
    getitem loads ds transform ↑idx =
      deserializeStep loads transform (resolve ds ↑idx).1 (resolve ds ↑idx).2.toNat
        (((ds.envs[(resolve ds ↑idx).1]?).getD (fun _ => none))
          (toString (((ds.keys[(resolve ds ↑idx).1]?).getD
            [])[(resolve ds ↑idx).2.toNat]?.getD 0))) := by
  obtain ⟨hslt, hsnd, hpos, hlen, hub1, hub2⟩ := resolve_char ds hWF idx hidx
  refine ⟨⟨hub1, hub2⟩, ?_, getitem_eq_step ds hWF loads transform idx hidx⟩
  rw [resolve_snd, resolve_fst]
  by_cases h0 : bisect ds.keylen_cumulative ↑idx = 0
  · rw [if_neg (by simp [h0]), if_pos h0]
    simp
  · rw [if_pos h0, if_neg h0]

theorem c1_global_index_resolution_witness :
    WF demoDS ∧ 6 < demoDS.num_samples ∧
    (((∀ j, j < (resolve demoDS 6).1 → demoDS.keylen_cumulative[j]?.getD 0 ≤ 6) ∧
      6 < demoDS.keylen_cumulative[(resolve demoDS 6).1]?.getD 0) ∧
    (resolve demoDS 6).2 = 6 - (if (resolve demoDS 6).1 = 0 then 0
      else ((demoDS.keylen_cumulative[(resolve demoDS 6).1 - 1]?.getD 0 : Nat) : Int)) ∧
    getitem demoLoads demoDS none 6 =
      deserializeStep demoLoads none (resolve demoDS 6).1 (resolve demoDS 6).2.toNat
        (((demoDS.envs[(resolve demoDS 6).1]?).getD (fun _ => none))
          (toString (((demoDS.keys[(resolve demoDS 6).1]?).getD
            [])[(resolve demoDS 6).2.toNat]?.getD 0)))) :=
  ⟨by decide, by decide,
    c1_global_index_resolution demoDS demoLoads none (by decide) 6 (by decide)⟩

/-- C2: on a well-formed dataset the map idx -> (db_idx, el_idx) computed by
`__getitem__` is a bijection from [0, num_samples) onto the pairs (s, o) with
0 <= o < len(_keys[s]): it is injective, lands in that set, and attains every
such pair. -/
theorem c2_resolution_bijection (ds : Dataset) (hWF : WF ds) :
    (∀ i1 i2 : Nat, i1 < ds.num_samples → i2 < ds.num_samples →
      resolve ds ↑i1 = resolve ds ↑i2 → i1 = i2) ∧
    (∀ i : Nat, i < ds.num_samples →
      (resolve ds ↑i).1 < ds.keys.length ∧ 0 ≤ (resolve ds ↑i).2 ∧
      (resolve ds ↑i).2.toNat < ((ds.keys[(resolve ds ↑i).1]?).getD []).length) ∧
    (∀ s o : Nat, s < ds.keys.length → o < ((ds.keys[s]?).getD []).length →
      ∃ i : Nat, i < ds.num_samples ∧ resolve ds ↑i = (s, (o : Int))) := by
  refine ⟨?_, ?_, ?_⟩
  · intro i1 i2 h1 h2 heq
    obtain ⟨_, hsnd1, _, _, _, _⟩ := resolve_char ds hWF i1 h1
    obtain ⟨_, hsnd2, _, _, _, _⟩ := resolve_char ds hWF i2 h2
    have hfst : (resolve ds ↑i1).1 = (resolve ds ↑i2).1 := by rw [heq]
    have hs2 : (resolve ds ↑i1).2 = (resolve ds ↑i2).2 := by rw [heq]
    rw [hsnd1, hsnd2, hfst] at hs2
    omega
  · intro i hi
    obtain ⟨h1, _, h3, h4, _, _⟩ := resolve_char ds hWF i hi
    exact ⟨h1, h3, h4⟩
  · intro s o hs ho
    obtain ⟨h1, h2⟩ := resolve_of_pair ds hWF s o hs ho
    exact ⟨_, h1, h2⟩

theorem c2_resolution_bijection_witness :
    WF demoDS ∧
    ((∀ i1 i2 : Nat, i1 < demoDS.num_samples → i2 < demoDS.num_samples →
      resolve demoDS ↑i1 = resolve demoDS ↑i2 → i1 = i2) ∧
    (∀ i : Nat, i < demoDS.num_samples →
      (resolve demoDS ↑i).1 < demoDS.keys.length ∧ 0 ≤ (resolve demoDS ↑i).2 ∧
      (resolve demoDS ↑i).2.toNat <
        ((demoDS.keys[(resolve demoDS ↑i).1]?).getD []).length) ∧
    (∀ s o : Nat, s < demoDS.keys.length →
      o < ((demoDS.keys[s]?).getD []).length →
      ∃ i : Nat, i < demoDS.num_samples ∧ resolve demoDS ↑i = (s, (o : Int)))) :=
  ⟨by decide, c2_resolution_bijection demoDS (by decide)⟩

/-- C3 counterexample: with world_size 3 and a shared shard of declared
length 10, rank 0's owned keys are [0, 3, 6]: the partition asserted by the
claim, in which rank 0 also owns key 9, is not what `__init__` builds
(`range(rank, 9, 3)` stops strictly below the trimmed length 9). -/
theorem c3_shared_shard_counterexample :
    keysAtRank 0 = [[0, 3, 6]] ∧ keysAtRank 0 ≠ [[0, 3, 6, 9]] := by
  decide

/-- C3 amended: with world_size 3 and a shared shard of declared length 10
(trimmed length 9), rank 0 owns keys [0, 3, 6], rank 1 owns [1, 4, 7] and
rank 2 owns [2, 5, 8]; key 9 is dropped by every rank, not only by
ranks 1 and 2. -/
theorem c3_shared_shard_partition :
    keysAtRank 0 = [[0, 3, 6]] ∧ keysAtRank 1 = [[1, 4, 7]] ∧
    keysAtRank 2 = [[2, 5, 8]] := by
  decide

/-- C4: for every world_size w >= 1 and sorted duplicate-free path list, a
rank's exclusive shards are exactly the full shards at indices congruent to
the rank modulo w (the strided slice `db_paths[rank:num_full:w]`); these
per-rank lists are pairwise disjoint, their union is exactly the full shards
`db_paths[0:num_full]`, and the owning rank's key list of each exclusive shard
is the full range 0..declared_length-1. -/
theorem c4_full_shard_partition (paths : List String) (w r : Nat)
    (fs : String → Env) (loads : Bytes → Option Value) (L : String → Nat)
    (hw : 0 < w) (hr : r < w) (hnodup : paths.Nodup) (hne : paths ≠ [])
    (hfs : ∀ p ∈ paths, readLength fs loads p = .ok (L p)) :
    (∀ q, q ∈ sliceStep paths r (numFull paths.length w) w ↔
      ∃ i, i < numFull paths.length w ∧ i % w = r ∧ paths[i]? = some q) ∧
    (∀ r1 r2, r1 < w → r2 < w → r1 ≠ r2 → ∀ q,
      q ∈ sliceStep paths r1 (numFull paths.length w) w →
      q ∉ sliceStep paths r2 (numFull paths.length w) w) ∧
    (∀ q, (∃ r2, r2 < w ∧ q ∈ sliceStep paths r2 (numFull paths.length w) w) ↔
      q ∈ paths.take (numFull paths.length w)) ∧
    (∃ ds, init fs loads paths w r = .ok ds ∧
      ∀ j, j < (sliceStep paths r (numFull paths.length w) w).length →
        ds.keys[j]? = ((sliceStep paths r (numFull paths.length w) w)[j]?).map
          (fun p => List.range (L p))) := by
  have hnf : numFull paths.length w ≤ paths.length := by
    unfold numFull
    omega
  refine ⟨fun q => mem_sliceStep paths w r q hw hr, ?_, ?_, ?_⟩
  · intro r1 r2 h1 h2 hner q hq1 hq2
    obtain ⟨i, hi1, hi2, hi3⟩ := (mem_sliceStep paths w r1 q hw h1).mp hq1
    obtain ⟨j, hj1, hj2, hj3⟩ := (mem_sliceStep paths w r2 q hw h2).mp hq2
    have hij : i = j :=
      List.getElem?_inj (by omega) hnodup (by rw [hi3, hj3])
    rw [hij, hj2] at hi2
    exact hner hi2.symm
  · intro q
    constructor
    · rintro ⟨r2, hr2, hq⟩
      obtain ⟨i, hi1, _, hi3⟩ := (mem_sliceStep paths w r2 q hw hr2).mp hq
      refine List.mem_iff_getElem?.mpr ⟨i, ?_⟩
      rw [List.getElem?_take, if_pos hi1]
      exact hi3
    · intro hq
      obtain ⟨i, hi⟩ := List.mem_iff_getElem?.mp hq
      rw [List.getElem?_take] at hi
      by_cases hlt : i < numFull paths.length w
      · rw [if_pos hlt] at hi
        refine ⟨i % w, Nat.mod_lt i hw, ?_⟩
        exact (mem_sliceStep paths w (i % w) q hw (Nat.mod_lt i hw)).mpr
          ⟨i, hlt, rfl, hi⟩
      · rw [if_neg hlt] at hi
        cases hi
  · refine ⟨expectedDS fs paths w r L,
      init_ok_eq fs loads paths w r L hne hfs, ?_⟩
    intro j hj
    show (builtKeys r w ((sliceStep paths r (numFull paths.length w) w).map L)
        ((paths.drop (numFull paths.length w)).map L))[j]? = _
    unfold builtKeys
    rw [List.getElem?_append, if_pos (by simpa using hj)]
    rw [List.getElem?_map, List.getElem?_map, Option.map_map]
    rfl

theorem c4_full_shard_partition_witness :
    (∀ p ∈ ["a.lmdb", "b.lmdb", "c.lmdb"],
      readLength demoFs10 demoLoads p = .ok 10) ∧
    (∀ q, (∃ r2, r2 < 2 ∧
        q ∈ sliceStep ["a.lmdb", "b.lmdb", "c.lmdb"] r2 (numFull 3 2) 2) ↔
      q ∈ (["a.lmdb", "b.lmdb", "c.lmdb"] : List String).take (numFull 3 2)) ∧
    (∃ ds, init demoFs10 demoLoads ["a.lmdb", "b.lmdb", "c.lmdb"] 2 0 = .ok ds ∧
      ∀ j, j < (sliceStep ["a.lmdb", "b.lmdb", "c.lmdb"] 0 (numFull 3 2) 2).length →
        ds.keys[j]? =
          ((sliceStep ["a.lmdb", "b.lmdb", "c.lmdb"] 0 (numFull 3 2) 2)[j]?).map
            (fun _ => List.range 10)) :=
  ⟨by decide,
    (c4_full_shard_partition ["a.lmdb", "b.lmdb", "c.lmdb"] 2 0 demoFs10 demoLoads
      (fun _ => 10) (by decide) (by decide) (by decide) (by decide) (by decide)).2.2.1,
    (c4_full_shard_partition ["a.lmdb", "b.lmdb", "c.lmdb"] 2 0 demoFs10 demoLoads
      (fun _ => 10) (by decide) (by decide) (by decide) (by decide) (by decide)).2.2.2⟩

/-- C5: on a well-formed dataset with valid stores and total length N > 0,
get(0) and get(N-1) succeed while every global index at or beyond N and every
negative index fails with the index-out-of-range error. -/
theorem c5_boundary (ds : Dataset) (loads : Bytes → Option Value)
    (transform : Option (DataObject → DataObject)) (hWF : WF ds)
    (hN : 0 < ds.num_samples) (hvalid : ValidStores loads ds) :
    (getitem loads ds transform 0).isOk = true ∧
    (getitem loads ds transform ↑(ds.num_samples - 1)).isOk = true ∧
    (∀ idx : Int, (ds.num_samples : Int) ≤ idx →
      getitem loads ds transform idx = .error .indexOutOfRange) ∧
    (∀ idx : Int, idx < 0 →
      getitem loads ds transform idx = .error .indexOutOfRange) := by
  refine ⟨?_, ?_, ?_, ?_⟩
  · have h := getitem_isOk ds hWF loads transform 0 (by omega) hvalid
    simpa using h
  · exact getitem_isOk ds hWF loads transform (ds.num_samples - 1) (by omega) hvalid
  · intro idx h
    exact getitem_out_of_range ds hWF loads transform idx h hN
  · intro idx h
    exact getitem_negative ds hWF loads transform idx h

theorem c5_boundary_witness :
    WF demoDS ∧ 0 < demoDS.num_samples ∧ ValidStores demoLoads demoDS ∧
    ((getitem demoLoads demoDS none 0).isOk = true ∧
    (getitem demoLoads demoDS none ↑(demoDS.num_samples - 1)).isOk = true ∧
    (∀ idx : Int, (demoDS.num_samples : Int) ≤ idx →
      getitem demoLoads demoDS none idx = .error .indexOutOfRange) ∧
    (∀ idx : Int, idx < 0 →
      getitem demoLoads demoDS none idx = .error .indexOutOfRange)) :=
  ⟨by decide, by decide, by decide,
    c5_boundary demoDS demoLoads none (by decide) (by decide) (by decide)⟩

/-- C6: `__getitem__` first applies the configured transform to the
deserialized record and only then overwrites the record's id attribute with
"{db_idx}_{el_idx}" (the per-shard local offset), clobbering any id the
transform produced; in particular with 2 shards of lengths 5 and 3 owned
fully by one rank, get(6) resolves to shard 1 offset 1 and the returned
record's id equals "1_1". -/
theorem c6_transform_then_id (ds : Dataset) (hWF : WF ds)
    (loads : Bytes → Option Value) (t : DataObject → DataObject)
    (idx : Nat) (hidx : idx < ds.num_samples) (b : Bytes) (d0 : DataObject)
    (hb : ((ds.envs[(resolve ds ↑idx).1]?).getD (fun _ => none))
        (toString (((ds.keys[(resolve ds ↑idx).1]?).getD
          [])[(resolve ds ↑idx).2.toNat]?.getD 0)) = some b)
    (hload : loads b = some (.data d0)) :
    getitem loads ds (some t) ↑idx =
      .ok { t d0 with
            id := toString (resolve ds ↑idx).1 ++ "_" ++
              toString (resolve ds ↑idx).2.toNat } ∧
    resolve demoDS 6 = (1, 1) ∧
    getitem demoLoads demoDS none 6 =
      .ok { edge_index := none, id := "1_1", payload := 0 } := by
  refine ⟨?_, by decide, by decide⟩
  rw [getitem_eq_step ds hWF loads (some t) idx hidx, hb,
    deserializeStep_data loads (some t) _ _ b d0 hload]

theorem c6_transform_then_id_witness :
    ((demoDS.envs[(resolve demoDS 6).1]?).getD (fun _ => none))
        (toString (((demoDS.keys[(resolve demoDS 6).1]?).getD
          [])[(resolve demoDS 6).2.toNat]?.getD 0)) = some [1, 0] ∧
    demoLoads [1, 0] =
      some (.data { edge_index := none, id := "orig", payload := 0 }) ∧
    getitem demoLoads demoDS (some demoT) 6 =
      .ok { edge_index := none, id := "1_1", payload := 1 } :=
  ⟨by decide, by decide,
    (c6_transform_then_id demoDS (by decide) demoLoads demoT 6 (by decide) [1, 0]
      { edge_index := none, id := "orig", payload := 0 }
      (by decide) (by decide)).1⟩

/-- C7 (code bug): `close_db` executes `self.env.close()`, but `__init__` only
ever assigns `self.envs` (one open handle per owned shard); the singular
attribute `env` is unset on every dataset `__init__` constructs, so `close_db`
raises AttributeError and releases none of the opened store handles, contrary
to the claim that it closes them all. -/
theorem c7_close_db_attribute_error (fs : String → Env)
    (loads : Bytes → Option Value) (db_paths : List String)
    (world_size rank : Nat) (ds : Dataset)
    (h : init fs loads db_paths world_size rank = .ok ds) :
    ds.env = none ∧ close_db ds = .error .attributeError := by
  have he := init_env_none fs loads db_paths world_size rank ds h
  refine ⟨he, ?_⟩
  unfold close_db
  rw [he]

theorem c7_close_db_attribute_error_witness :
    init demoFs demoLoads ["a.lmdb", "b.lmdb"] 1 0 = .ok demoDS ∧
    (demoDS.env = none ∧ close_db demoDS = .error .attributeError) :=
  ⟨rfl, c7_close_db_attribute_error demoFs demoLoads ["a.lmdb", "b.lmdb"] 1 0
    demoDS rfl⟩

/-- C8: during construction each opened shard's declared length is obtained by
fetching the fixed metadata key "length" from its store and deserializing the
bytes; if for any owned shard the key is absent or the bytes do not
deserialize to an integer, `__init__` fails with `malformedShard` and no
dataset is produced. -/
theorem c8_malformed_shard_aborts (fs : String → Env)
    (loads : Bytes → Option Value) (db_paths : List String)
    (world_size rank : Nat) (hne : db_paths ≠ []) (p : String)
    (hp : p ∈ sliceStep db_paths rank (numFull db_paths.length world_size)
        world_size ++ db_paths.drop (numFull db_paths.length world_size))
    (hbad : fs p "length" = none ∨
      ∃ b, fs p "length" = some b ∧ ∀ n : Nat, loads b ≠ some (.nat n)) :
    init fs loads db_paths world_size rank = .error .malformedShard := by
  have hrl : readLength fs loads p = .error .malformedShard := by
    unfold readLength
    rcases hbad with h | ⟨b, hb, hn⟩
    · rw [h]
    · rw [hb]
      cases hl : loads b with
      | none => simp only [hl]
      | some v =>
        cases v with
        | nat n => exact absurd hl (hn n)
        | data d => simp only [hl]
  exact init_error_of_bad fs loads db_paths world_size rank hne p hp hrl

theorem c8_malformed_shard_aborts_witness :
    badFs "a.lmdb" "length" = none ∧
    "a.lmdb" ∈ sliceStep ["a.lmdb"] 0 (numFull 1 1) 1 ++
      List.drop (numFull 1 1) ["a.lmdb"] ∧
    init badFs demoLoads ["a.lmdb"] 1 0 = .error .malformedShard :=
  ⟨rfl, by decide,
    c8_malformed_shard_aborts badFs demoLoads ["a.lmdb"] 1 0 (by decide) "a.lmdb"
      (by decide) (Or.inl rfl)⟩

/-- C9: `data_list_collater` with otf_graph false and every record carrying an
edge-connectivity field attaches a neighbors sequence whose i-th entry is the
number of entries in the second row of record i's edge_index; if the field is
absent on any record the derivation is skipped for the whole batch, the
diagnostic is printed and the batch is still returned; with otf_graph true the
derivation is skipped entirely. -/
theorem c9_collater_neighbors (dl : List DataObject) :
    ((data_list_collater dl true).neighbors = none ∧
      (data_list_collater dl true).diagnostic = false ∧
      (data_list_collater dl true).data_list = dl) ∧
    ((∀ d ∈ dl, d.edge_index.isSome = true) →
      (data_list_collater dl false).neighbors = some (dl.map secondRowLen) ∧
      (data_list_collater dl false).diagnostic = false ∧
      (data_list_collater dl false).data_list = dl) ∧
    ((∃ d ∈ dl, d.edge_index = none) →
      (data_list_collater dl false).neighbors = none ∧
      (data_list_collater dl false).diagnostic = true ∧
      (data_list_collater dl false).data_list = dl) := by
  refine ⟨?_, ?_, ?_⟩
  · unfold data_list_collater
    simp
  · intro h
    unfold data_list_collater
    rw [if_pos (by simp), if_pos (List.all_eq_true.mpr h)]
    exact ⟨rfl, rfl, rfl⟩
  · rintro ⟨d, hd, hnone⟩
    unfold data_list_collater
    rw [if_pos (by simp), if_neg ?hall]
    case hall =>
      intro hall
      have h2 := List.all_eq_true.mp hall d hd
      rw [hnone] at h2
      simp at h2
    exact ⟨rfl, rfl, rfl⟩

theorem c9_collater_neighbors_witness :
    (∀ d ∈ demoRecords, d.edge_index.isSome = true) ∧
    ((data_list_collater demoRecords false).neighbors =
        some (demoRecords.map secondRowLen) ∧
      (data_list_collater demoRecords false).diagnostic = false ∧
      (data_list_collater demoRecords false).data_list = demoRecords) ∧
    (data_list_collater demoRecords true).neighbors = none :=
  ⟨by decide, (c9_collater_neighbors demoRecords).2.1 (by decide),
    (c9_collater_neighbors demoRecords).1.1⟩

/-- C10: for every in-range global index, the shard chosen by the bisect over
`_keylen_cumulative` has a non-empty owned-key list and the computed el_idx
satisfies 0 <= el_idx < len(_keys[db_idx]), so `_keys[db_idx][el_idx]` is
always in bounds; shards contributing zero owned keys are never selected
because the upper-bound bisect skips repeated cumulative values. -/
theorem c10_lookup_in_bounds (ds : Dataset) (hWF : WF ds) (idx : Nat)
    (hidx : idx < ds.num_samples) :
    (resolve ds ↑idx).1 < ds.keys.length ∧
    (ds.keys[(resolve ds ↑idx).1]?).getD [] ≠ [] ∧
    0 ≤ (resolve ds ↑idx).2 ∧
    (resolve ds ↑idx).2.toNat < ((ds.keys[(resolve ds ↑idx).1]?).getD []).length ∧
    (((ds.keys[(resolve ds ↑idx).1]?).getD
      [])[(resolve ds ↑idx).2.toNat]?).isSome = true := by
  obtain ⟨h1, _, h3, h4, _, _⟩ := resolve_char ds hWF idx hidx
  refine ⟨h1, ?_, h3, h4, ?_⟩
  · intro hemp
    rw [hemp] at h4
    simp at h4
  · rw [List.getElem?_eq_getElem h4]
    rfl

theorem c10_lookup_in_bounds_witness :
    WF demoDS2 ∧ 2 < demoDS2.num_samples ∧
    ((resolve demoDS2 2).1 < demoDS2.keys.length ∧
    (demoDS2.keys[(resolve demoDS2 2).1]?).getD [] ≠ [] ∧
    0 ≤ (resolve demoDS2 2).2 ∧
    (resolve demoDS2 2).2.toNat <
      ((demoDS2.keys[(resolve demoDS2 2).1]?).getD []).length ∧
    (((demoDS2.keys[(resolve demoDS2 2).1]?).getD
      [])[(resolve demoDS2 2).2.toNat]?).isSome = true) :=
  ⟨by decide, by decide, c10_lookup_in_bounds demoDS2 (by decide) 2 (by decide)⟩

end OCP
